import Mathlib

/-!
Verification of the `oma_tracking` package: a shallow embedding of
`oma_tracking.py` (mode tracking), `modal_tracking/harmonics.py`
(harmonic detection/removal) and `oma_clustering.py` (mode clustering),
together with theorems settling the specification claims.

Numeric values are modelled as rationals; pandas frames are modelled as
lists of rows (or of columns where the source works column-wise), with
the original row index carried explicitly where the source relies on it.
-/

namespace OmaTracking

/-! ## Part 1: `oma_tracking.py` — `ModeTracking.classify_indices`

The reference table `clustered_modes` has columns `mean_frequency`,
`labels`, `max_distance`; one row per reference cluster. -/

structure RefCluster where
  mean_frequency : ℚ
  labels : String
  max_distance : ℚ
deriving DecidableEq

/-- `abs(frequency - ref.mean_frequency)` for one reference row. -/
def qdist (f : ℚ) (r : RefCluster) : ℚ := |f - r.mean_frequency|

/-- The pandas series `distances[distances <= clustered_modes["max_distance"]]`:
the filtered series keeps the original row index of each entry, so entries are
`(original index, distance)` pairs, built here with an explicit index counter. -/
def qualifyingDistances (f : ℚ) : List RefCluster → ℕ → List (ℕ × ℚ)
  | [], _ => []
  | r :: rs, i =>
    if qdist f r ≤ r.max_distance then
      (i, qdist f r) :: qualifyingDistances f rs (i + 1)
    else
      qualifyingDistances f rs (i + 1)

/-- `Series.idxmin` auxiliary: scan left to right, replacing the current best
only on a strictly smaller value, so the first occurrence of the minimum wins. -/
def idxminAux (best : ℕ × ℚ) : List (ℕ × ℚ) → ℕ
  | [] => best.1
  | p :: rest => if p.2 < best.2 then idxminAux p rest else idxminAux best rest

/-- `Series.idxmin`: index label of the first occurrence of the minimum value. -/
def idxmin : List (ℕ × ℚ) → Option ℕ
  | [] => none
  | p :: rest => some (idxminAux p rest)

/-- `clustered_modes.loc[i, "labels"]`. -/
def labelAt (refs : List RefCluster) (i : ℕ) : String :=
  ((refs.get? i).map RefCluster.labels).getD ("undefined")

/-- `closest_mode` from `ModeTracking.classify_indices`. -/
def closest_mode (refs : List RefCluster) (f : ℚ) : String :=
  match idxmin (qualifyingDistances f refs 0) with
  | some i => labelAt refs i
  | none => "undefined"

/-- `ModeTracking.classify_indices`: the observations frame with the new
`labels` column, one `(frequency, label)` row per observation. -/
def classify_indices (refs : List RefCluster) (oma_modes : List ℚ) :
    List (ℚ × String) :=
  oma_modes.map (fun f => (f, closest_mode refs f))

/-- The reference table of `test_classify_indices`. -/
def refsABC : List RefCluster :=
  [⟨1, "A", 1/2⟩, ⟨2, "B", 3/10⟩, ⟨3, "C", 1/5⟩]

/-! ### Lemmas about `qualifyingDistances` and `idxmin` -/

lemma qualifyingDistances_mem (f : ℚ) :
    ∀ (rs : List RefCluster) (i : ℕ) (k : ℕ) (v : ℚ),
      (k, v) ∈ qualifyingDistances f rs i ↔
        ∃ j r, k = i + j ∧ rs.get? j = some r ∧
          qdist f r ≤ r.max_distance ∧ v = qdist f r := by
  intro rs
  induction rs with
  | nil =>
    intro i k v
    simp [qualifyingDistances]
  | cons r rs ih =>
    intro i k v
    constructor
    · intro hmem
      by_cases hq : qdist f r ≤ r.max_distance
      · rw [qualifyingDistances, if_pos hq] at hmem
        rcases List.mem_cons.mp hmem with hhead | htail
        · refine ⟨0, r, ?_, by simp, hq, ?_⟩
          · have := congrArg Prod.fst hhead; simpa using this
          · have := congrArg Prod.snd hhead; simpa using this
        · rcases (ih (i + 1) k v).mp htail with ⟨j, s, hk, hget, hqs, hv⟩
          exact ⟨j + 1, s, by omega, by simpa using hget, hqs, hv⟩
      · rw [qualifyingDistances, if_neg hq] at hmem
        rcases (ih (i + 1) k v).mp hmem with ⟨j, s, hk, hget, hqs, hv⟩
        exact ⟨j + 1, s, by omega, by simpa using hget, hqs, hv⟩
    · rintro ⟨j, s, hk, hget, hqs, hv⟩
      cases j with
      | zero =>
        have hs : r = s := by simpa using hget
        subst hs
        have hk0 : k = i := by omega
        subst hk0
        subst hv
        rw [qualifyingDistances, if_pos hqs]
        exact List.mem_cons_self _ _
      | succ j =>
        have hget2 : rs.get? j = some s := by simpa using hget
        have htail : (k, v) ∈ qualifyingDistances f rs (i + 1) :=
          (ih (i + 1) k v).mpr ⟨j, s, by omega, hget2, hqs, hv⟩
        by_cases hq : qdist f r ≤ r.max_distance
        · rw [qualifyingDistances, if_pos hq]; exact List.mem_cons_of_mem _ htail
        · rw [qualifyingDistances, if_neg hq]; exact htail

lemma qualifyingDistances_keys_lt (f : ℚ) :
    ∀ (rs : List RefCluster) (i : ℕ),
      (∀ p ∈ qualifyingDistances f rs i, i ≤ p.1) ∧
      (qualifyingDistances f rs i).Pairwise (fun p q => p.1 < q.1) := by
  intro rs
  induction rs with
  | nil => intro i; simp [qualifyingDistances]
  | cons r rs ih =>
    intro i
    have hge := (ih (i + 1)).1
    have hpw := (ih (i + 1)).2
    by_cases hq : qdist f r ≤ r.max_distance
    · rw [qualifyingDistances, if_pos hq]
      refine ⟨?_, ?_⟩
      · intro p hp
        rcases List.mem_cons.mp hp with h | h
        · subst h; exact le_refl _
        · exact le_trans (Nat.le_succ i) (hge p h)
      · exact List.pairwise_cons.mpr ⟨fun q hq2 => lt_of_lt_of_le (Nat.lt_succ_self i) (hge q hq2), hpw⟩
    · rw [qualifyingDistances, if_neg hq]
      exact ⟨fun p hp => le_trans (Nat.le_succ i) (hge p hp), hpw⟩

/-- `idxminAux` returns the key of the first pair attaining the minimum value,
for a scan list whose keys are strictly increasing after the current best. -/
lemma idxminAux_spec :
    ∀ (l : List (ℕ × ℚ)) (b : ℕ × ℚ),
      l.Pairwise (fun p q => p.1 < q.1) → (∀ p ∈ l, b.1 < p.1) →
      ∃ v, (idxminAux b l, v) ∈ b :: l ∧ (∀ p ∈ b :: l, v ≤ p.2) ∧
        (∀ p ∈ b :: l, p.2 = v → idxminAux b l ≤ p.1) := by
  intro l
  induction l with
  | nil =>
    intro b _ _
    exact ⟨b.2, by simp [idxminAux], by simp [idxminAux], by simp [idxminAux]⟩
  | cons q rest ih =>
    intro b hpw hb
    have hpw2 := List.pairwise_cons.mp hpw
    by_cases hlt : q.2 < b.2
    · rw [idxminAux, if_pos hlt]
      rcases ih q hpw2.2 hpw2.1 with ⟨v, hmem, hmin, hfirst⟩
      refine ⟨v, List.mem_cons_of_mem _ hmem, ?_, ?_⟩
      · intro p hp
        rcases List.mem_cons.mp hp with h | h
        · subst h
          exact le_trans (hmin q (List.mem_cons_self _ _)) (le_of_lt hlt)
        · exact hmin p h
      · intro p hp hpv
        rcases List.mem_cons.mp hp with h | h
        · subst h
          have hvq : v ≤ q.2 := hmin q (List.mem_cons_self _ _)
          have hcontr : v < v := by
            calc v ≤ q.2 := hvq
            _ < p.2 := hlt
            _ = v := hpv
          exact absurd hcontr (lt_irrefl v)
        · exact hfirst p h hpv
    · rw [idxminAux, if_neg hlt]
      have hble : b.2 ≤ q.2 := le_of_not_lt hlt
      have hb2 : ∀ p ∈ rest, b.1 < p.1 := fun p hp =>
        lt_trans (hb q (List.mem_cons_self _ _)) (hpw2.1 p hp)
      rcases ih b hpw2.2 hb2 with ⟨v, hmem, hmin, hfirst⟩
      refine ⟨v, ?_, ?_, ?_⟩
      · rcases List.mem_cons.mp hmem with h | h
        · exact List.mem_cons.mpr (Or.inl h)
        · exact List.mem_cons_of_mem _ (List.mem_cons_of_mem _ h)
      · intro p hp
        rcases List.mem_cons.mp hp with h | h
        · rw [h]; exact hmin b (List.mem_cons_self _ _)
        · rcases List.mem_cons.mp h with h2 | h2
          · rw [h2]
            exact le_trans (hmin b (List.mem_cons_self _ _)) hble
          · exact hmin p (List.mem_cons_of_mem _ h2)
      · intro p hp hpv
        rcases List.mem_cons.mp hp with h | h
        · rw [h] at hpv ⊢
          exact hfirst b (List.mem_cons_self _ _) hpv
        · rcases List.mem_cons.mp h with h2 | h2
          · rw [h2] at hpv ⊢
            have hvb : v ≤ b.2 := hmin b (List.mem_cons_self _ _)
            have hbv : b.2 = v := le_antisymm (hpv ▸ hble) hvb
            have hres : idxminAux b rest ≤ b.1 :=
              hfirst b (List.mem_cons_self _ _) hbv
            exact le_trans hres (le_of_lt (hb q (List.mem_cons_self _ _)))
          · exact hfirst p (List.mem_cons_of_mem _ h2) hpv

/-- `idxmin` of a nonempty key-increasing series: key of the first minimum. -/
lemma idxmin_spec (l : List (ℕ × ℚ)) (hpw : l.Pairwise (fun p q => p.1 < q.1))
    (hne : l ≠ []) :
    ∃ i v, idxmin l = some i ∧ (i, v) ∈ l ∧ (∀ p ∈ l, v ≤ p.2) ∧
      (∀ p ∈ l, p.2 = v → i ≤ p.1) := by
  cases l with
  | nil => exact absurd rfl hne
  | cons b rest =>
    have hpw2 := List.pairwise_cons.mp hpw
    rcases idxminAux_spec rest b hpw2.2 hpw2.1 with ⟨v, hmem, hmin, hfirst⟩
    exact ⟨idxminAux b rest, v, rfl, hmem, hmin, hfirst⟩

/-- Master characterization of `closest_mode` when some reference qualifies:
the result is the label of the first (lowest row index) reference attaining
the minimum distance among qualifying references. -/
lemma closest_mode_qualifying (refs : List RefCluster) (f : ℚ)
    (h : ∃ r0 ∈ refs, qdist f r0 ≤ r0.max_distance) :
    ∃ i r, refs.get? i = some r ∧ qdist f r ≤ r.max_distance ∧
      (∀ s ∈ refs, qdist f s ≤ s.max_distance → qdist f r ≤ qdist f s) ∧
      (∀ j s, refs.get? j = some s → qdist f s ≤ s.max_distance →
        qdist f s = qdist f r → i ≤ j) ∧
      closest_mode refs f = r.labels := by
  rcases h with ⟨r0, hr0mem, hr0q⟩
  rcases List.mem_iff_get?.mp hr0mem with ⟨j0, hj0⟩
  have hmem0 : (j0, qdist f r0) ∈ qualifyingDistances f refs 0 :=
    (qualifyingDistances_mem f refs 0 j0 (qdist f r0)).mpr
      ⟨j0, r0, by omega, hj0, hr0q, rfl⟩
  have hne : qualifyingDistances f refs 0 ≠ [] := by
    intro hnil; rw [hnil] at hmem0; exact List.not_mem_nil _ hmem0
  have hpw := (qualifyingDistances_keys_lt f refs 0).2
  rcases idxmin_spec _ hpw hne with ⟨i, v, hidx, hmemi, hmin, hfirst⟩
  rcases (qualifyingDistances_mem f refs 0 i v).mp hmemi with ⟨j, r, hij, hget, hq, hv⟩
  have hij0 : i = j := by omega
  subst hij0
  refine ⟨i, r, hget, hq, ?_, ?_, ?_⟩
  · intro s hsmem hsq
    rcases List.mem_iff_get?.mp hsmem with ⟨js, hjs⟩
    have hsd : (js, qdist f s) ∈ qualifyingDistances f refs 0 :=
      (qualifyingDistances_mem f refs 0 js (qdist f s)).mpr
        ⟨js, s, by omega, hjs, hsq, rfl⟩
    have := hmin _ hsd
    simpa [hv] using this
  · intro j2 s hj2 hsq hsd
    have hsd2 : (j2, qdist f s) ∈ qualifyingDistances f refs 0 :=
      (qualifyingDistances_mem f refs 0 j2 (qdist f s)).mpr
        ⟨j2, s, by omega, hj2, hsq, rfl⟩
    exact hfirst _ hsd2 (by simpa [hv] using hsd)
  · simp only [closest_mode, labelAt, hidx, hget, Option.map_some', Option.getD_some]

/-- C1: `ModeTracking.classify_indices` assigns to each observation the label
of the reference cluster with minimum `|observation.frequency - mean_frequency|`
among references within their `max_distance`, and the string "undefined" when
no reference qualifies; on the test data (references (1,"A",0.5), (2,"B",0.3),
(3,"C",0.2)) the observations 1.1, 2.1, 3.1, 4.1 get labels A, B, C, undefined. -/
theorem claim_C1_classify_indices (refs : List RefCluster) (obs : List ℚ) :
    (classify_indices refs obs).map Prod.fst = obs ∧
    (∀ f lab, (f, lab) ∈ classify_indices refs obs →
      ((∀ r ∈ refs, ¬ (qdist f r ≤ r.max_distance)) → lab = "undefined") ∧
      (∀ r0 ∈ refs, qdist f r0 ≤ r0.max_distance →
        ∃ r ∈ refs, qdist f r ≤ r.max_distance ∧
          (∀ s ∈ refs, qdist f s ≤ s.max_distance → qdist f r ≤ qdist f s) ∧
          lab = r.labels)) ∧
    classify_indices refsABC [11/10, 21/10, 31/10, 41/10] =
      [(11/10, "A"), (21/10, "B"), (31/10, "C"), (41/10, "undefined")] := by
  refine ⟨?_, ?_, ?_⟩
  · simp [classify_indices, Function.comp_def]
  case refine_3 =>
    norm_num [classify_indices, closest_mode, refsABC, qualifyingDistances,
      qdist, idxmin, idxminAux, labelAt, abs_of_nonneg, abs_of_nonpos]
  · intro f lab hmem
    rcases List.mem_map.mp hmem with ⟨g, hg, heq⟩
    have hf : g = f := congrArg Prod.fst heq
    have hlab : lab = closest_mode refs f := by
      rw [← hf]; exact (congrArg Prod.snd heq).symm
    subst hf
    constructor
    · intro hnone
      rw [hlab, closest_mode]
      have hnil : qualifyingDistances g refs 0 = [] := by
        cases hqd : qualifyingDistances g refs 0 with
        | nil => rfl
        | cons p l =>
          exfalso
          have hp : (p.1, p.2) ∈ qualifyingDistances g refs 0 := by
            rw [hqd]; exact List.mem_cons_self _ _
          rcases (qualifyingDistances_mem g refs 0 p.1 p.2).mp hp with
            ⟨j, r, _, hget, hq, _⟩
          exact hnone r (List.get?_mem hget) hq
      rw [hnil]
      rfl
    · intro r0 hr0 hq0
      rcases closest_mode_qualifying refs g ⟨r0, hr0, hq0⟩ with
        ⟨i, r, hget, hq, hmin, _, hcm⟩
      exact ⟨r, List.get?_mem hget, hq, hmin, by rw [hlab, hcm]⟩

/-- C1 witness: applying the theorem at the test data, observation 4.1 is
labeled "undefined" because no reference cluster qualifies. -/
theorem claim_C1_witness : closest_mode refsABC (41/10) = "undefined" := by
  have hm : ((41/10 : ℚ), closest_mode refsABC (41/10)) ∈
      classify_indices refsABC [41/10] := by
    simp [classify_indices]
  refine ((claim_C1_classify_indices refsABC [41/10]).2.1 _ _ hm).1 ?_
  intro r hr
  simp only [refsABC, List.mem_cons, List.not_mem_nil, or_false] at hr
  rcases hr with h | h | h <;> rw [h] <;>
    norm_num [qdist, abs_of_nonneg, abs_of_nonpos]

/-- C10: `classify_indices` resolves ties deterministically: when the reference
at row `i` qualifies, attains the minimum qualifying distance, and every
earlier qualifying reference has strictly larger distance (i.e. `i` is the
first occurrence of the minimum, as `Series.idxmin` returns), its label is
assigned. -/
theorem claim_C10_tie_break (refs : List RefCluster) (f : ℚ) (i : ℕ)
    (r : RefCluster) (hi : refs.get? i = some r)
    (hq : qdist f r ≤ r.max_distance)
    (hmin : ∀ j s, refs.get? j = some s → qdist f s ≤ s.max_distance →
      qdist f r ≤ qdist f s)
    (hfirst : ∀ j s, j < i → refs.get? j = some s →
      qdist f s ≤ s.max_distance → qdist f r < qdist f s) :
    closest_mode refs f = r.labels := by
  rcases closest_mode_qualifying refs f ⟨r, List.get?_mem hi, hq⟩ with
    ⟨i2, r2, hget2, hq2, hmin2, hfirst2, hcm⟩
  have hle1 : qdist f r2 ≤ qdist f r := hmin2 r (List.get?_mem hi) hq
  have hle2 : qdist f r ≤ qdist f r2 := hmin i2 r2 hget2 hq2
  have hdeq : qdist f r2 = qdist f r := le_antisymm hle1 hle2
  have hii : i2 = i := by
    rcases lt_trichotomy i2 i with hlt | heq | hgt
    · exfalso
      have := hfirst i2 r2 hlt hget2 hq2
      rw [hdeq] at this
      exact lt_irrefl _ this
    · exact heq
    · exfalso
      have := hfirst2 i r hi hq hdeq.symm
      omega
  subst hii
  rw [hi] at hget2
  have h5 : r = r2 := by injection hget2
  rw [hcm, ← h5]

/-- C10 witness: a concrete tie — references (1,"A",0.5) and (2,"B",0.5) are
both at distance 1/2 from observation 3/2 and both qualify; the first row
("A") wins. -/
theorem claim_C10_witness :
    closest_mode [⟨1, "A", 1/2⟩, ⟨2, "B", 1/2⟩] (3/2) = "A" := by
  refine claim_C10_tie_break _ _ 0 ⟨1, "A", 1/2⟩ rfl
    (by norm_num [qdist, abs_of_nonneg, abs_of_nonpos]) ?_ ?_
  · intro j s hget hqs
    rcases j with _ | _ | j
    · have hs : s = ⟨1, "A", 1/2⟩ := by simpa using hget.symm
      rw [hs]
    · have hs : s = ⟨2, "B", 1/2⟩ := by simpa using hget.symm
      rw [hs]
      norm_num [qdist, abs_of_nonneg, abs_of_nonpos]
    · simp at hget
  · intro j s hj _ _
    exact absurd hj (Nat.not_lt_zero j)

/-! ## Part 2: `modal_tracking/harmonics.py`

A modal row carries its timestamp (the frame index), frequency, damping and
size; the scada rpm series is a function of the timestamp (the `.loc`
alignment of `get_plot_distance_data` always finds the row's timestamp). -/

structure HRow where
  timestamp : ℕ
  frequency : ℚ
  damping : ℚ
  size : ℚ
deriving DecidableEq

structure Detector where
  modal : List HRow
  rpm : ℕ → ℚ
  p_orders : List ℕ
  min_rpm : ℚ
  max_distance : ℚ

/-- `HarmonicDetector.distance_to_harmonic`:
`abs(p/60 * rpm - frequency)` per row. -/
def distance_to_harmonic (d : Detector) (p : ℕ) (r : HRow) : ℚ :=
  |(p : ℚ) / 60 * d.rpm r.timestamp - r.frequency|

/-- `HarmonicDetector.get_plot_distance_data`: the modal table (with the
distance columns available through `distance_to_harmonic`) filtered by
`damping < max_damping` and then `frequency < frequency_range[1]`. -/
def get_plot_distance_data (d : Detector) (freqHigh max_damping : ℚ) :
    List HRow :=
  (d.modal.filter (fun r => decide (r.damping < max_damping))).filter
    (fun r => decide (r.frequency < freqHigh))

/-- `DataFrame.min(axis=1)` over the distance columns of one row. -/
def listMin : List ℚ → Option ℚ
  | [] => none
  | x :: xs =>
    match listMin xs with
    | none => some x
    | some m => some (min x m)

/-- The removal condition of `remove_harmonics`: the row has
`rpm > min_rpm` and its min-over-orders distance is `< max_distance`. -/
def isHarmonicRow (d : Detector) (r : HRow) : Bool :=
  decide (d.min_rpm < d.rpm r.timestamp) &&
    (match listMin (d.p_orders.map (fun p => distance_to_harmonic d p r)) with
     | none => false
     | some m => decide (m < d.max_distance))

/-- `HarmonicDetector.remove_harmonics`: take `get_plot_distance_data()` with
its default arguments `frequency_range=(0, 2)`, `max_damping=10.0`, and drop
the rows with `rpm > min_rpm` whose min-over-orders distance is below
`max_distance`. -/
def remove_harmonics (d : Detector) : List HRow :=
  (get_plot_distance_data d 2 10).filter (fun r => ! isHarmonicRow d r)

/-! ### Lemmas about `listMin` -/

lemma listMin_eq_none (l : List ℚ) : listMin l = none ↔ l = [] := by
  cases l with
  | nil => simp [listMin]
  | cons x xs =>
    simp only [listMin]
    cases listMin xs <;> simp

lemma listMin_mem : ∀ (l : List ℚ) (m : ℚ), listMin l = some m → m ∈ l := by
  intro l
  induction l with
  | nil => intro m h; simp [listMin] at h
  | cons x xs ih =>
    intro m h
    rw [listMin] at h
    cases hxs : listMin xs with
    | none =>
      rw [hxs] at h
      have : x = m := by injection h
      rw [← this]; exact List.mem_cons_self _ _
    | some m2 =>
      rw [hxs] at h
      have hm : min x m2 = m := by injection h
      rcases min_choice x m2 with hc | hc
      · rw [hc] at hm
        rw [← hm]; exact List.mem_cons_self _ _
      · rw [hc] at hm
        rw [← hm]; exact List.mem_cons_of_mem _ (ih m2 hxs)

lemma listMin_le : ∀ (l : List ℚ) (m : ℚ), listMin l = some m →
    ∀ x ∈ l, m ≤ x := by
  intro l
  induction l with
  | nil => intro m h; simp [listMin] at h
  | cons x xs ih =>
    intro m h y hy
    rw [listMin] at h
    cases hxs : listMin xs with
    | none =>
      rw [hxs] at h
      have hxm : x = m := by injection h
      have hnil : xs = [] := (listMin_eq_none xs).mp hxs
      rcases List.mem_cons.mp hy with h2 | h2
      · rw [← hxm, h2]
      · rw [hnil] at h2; exact absurd h2 (List.not_mem_nil y)
    | some m2 =>
      rw [hxs] at h
      have hm : min x m2 = m := by injection h
      rcases List.mem_cons.mp hy with h2 | h2
      · rw [← hm, h2]; exact min_le_left _ _
      · rw [← hm]; exact le_trans (min_le_right _ _) (ih m2 hxs y h2)

/-- Rows retained by `remove_harmonics` have damping < 10 and frequency < 2
(the hard-coded defaults of `get_plot_distance_data`). -/
lemma remove_harmonics_mem_bounds (d : Detector) (r : HRow)
    (hr : r ∈ remove_harmonics d) : r.damping < 10 ∧ r.frequency < 2 := by
  have h1 := (List.mem_filter.mp hr).1
  have h2 := List.mem_filter.mp h1
  have h3 := List.mem_filter.mp h2.1
  exact ⟨of_decide_eq_true h3.2, of_decide_eq_true h2.2⟩

/-- C2: `remove_harmonics` is a pure row filter: output rows form a sublist
of the input rows (values untouched, count not increased); every retained
row has `rpm ≤ min_rpm` or min-over-orders distance `≥ max_distance`; and a
row with `rpm > min_rpm` is flagged for removal iff it is close to at least
one harmonic order (OR semantics). -/
theorem claim_C2_remove_harmonics (d : Detector) :
    (remove_harmonics d).Sublist d.modal ∧
    (remove_harmonics d).length ≤ d.modal.length ∧
    (∀ r ∈ remove_harmonics d,
      d.rpm r.timestamp ≤ d.min_rpm ∨
        (∀ m, listMin (d.p_orders.map (fun p => distance_to_harmonic d p r)) =
            some m → d.max_distance ≤ m)) ∧
    (∀ r ∈ get_plot_distance_data d 2 10, d.min_rpm < d.rpm r.timestamp →
      (isHarmonicRow d r = true ↔
        ∃ p ∈ d.p_orders, distance_to_harmonic d p r < d.max_distance)) := by
  have hsub : (remove_harmonics d).Sublist d.modal := by
    refine List.Sublist.trans (List.filter_sublist _) ?_
    exact List.Sublist.trans (List.filter_sublist _) (List.filter_sublist _)
  refine ⟨hsub, hsub.length_le, ?_, ?_⟩
  · intro r hr
    have h2 := (List.mem_filter.mp hr).2
    have hfalse : isHarmonicRow d r = false := by
      cases hb : isHarmonicRow d r
      · rfl
      · rw [hb] at h2; simp at h2
    rw [isHarmonicRow] at hfalse
    rcases Bool.and_eq_false_iff.mp hfalse with hc | hc
    · exact Or.inl (le_of_not_lt (of_decide_eq_false hc))
    · refine Or.inr ?_
      intro m hm
      rw [hm] at hc
      exact le_of_not_lt (of_decide_eq_false hc)
  · intro r _ hrpm
    rw [isHarmonicRow, decide_eq_true hrpm, Bool.true_and]
    cases hlm : listMin (d.p_orders.map (fun p => distance_to_harmonic d p r)) with
    | none =>
      have hnil := (listMin_eq_none _).mp hlm
      have hord : d.p_orders = [] := List.map_eq_nil_iff.mp hnil
      simp [hord]
    | some m =>
      constructor
      · intro hdec
        have hmlt : m < d.max_distance := of_decide_eq_true hdec
        have hmem := listMin_mem _ _ hlm
        rcases List.mem_map.mp hmem with ⟨p, hp, hpd⟩
        exact ⟨p, hp, by rw [hpd]; exact hmlt⟩
      · rintro ⟨p, hp, hplt⟩
        have hle : m ≤ distance_to_harmonic d p r :=
          listMin_le _ _ hlm _ (List.mem_map.mpr ⟨p, hp, rfl⟩)
        exact decide_eq_true (lt_of_le_of_lt hle hplt)

/-- A detector whose single row sits exactly on the 1p harmonic. -/
def dHarm : Detector :=
  ⟨[⟨0, 1/6, 0, 1⟩], fun _ => 10, [1], 6, 1/10⟩

/-- C2 witness: in `dHarm` the row has rpm 10 > 6 and is at distance 0 from
the 1p harmonic, so the removal rule flags it (OR semantics at order 1). -/
theorem claim_C2_witness : isHarmonicRow dHarm ⟨0, 1/6, 0, 1⟩ = true := by
  have hmem : (⟨0, 1/6, 0, 1⟩ : HRow) ∈ get_plot_distance_data dHarm 2 10 := by
    refine List.mem_filter.mpr ⟨List.mem_filter.mpr ⟨by simp [dHarm], ?_⟩, ?_⟩
    · rw [decide_eq_true_eq]; norm_num
    · rw [decide_eq_true_eq]; norm_num
  refine ((claim_C2_remove_harmonics dHarm).2.2.2 _ hmem (by norm_num [dHarm])).mpr
    ⟨1, by simp [dHarm], ?_⟩
  norm_num [distance_to_harmonic, dHarm]

/-- The detector of the C9 counter-scenario: its single row has damping 12
and rpm 0 ≤ min_rpm 6, yet it is removed (by the damping value filter). -/
def dC9 : Detector :=
  ⟨[⟨0, 1, 12, 1⟩], fun _ => 0, [1], 6, 1/10⟩

/-- C9: `remove_harmonics` inherits `get_plot_distance_data`'s default value
filters: every output row has damping < 10 and frequency < 2; and a concrete
row at rpm ≤ min_rpm with damping 12 is nevertheless removed. -/
theorem claim_C9_value_filters (d : Detector) (r : HRow) :
    (r ∈ remove_harmonics d → r.damping < 10 ∧ r.frequency < 2) ∧
    ((⟨0, 1, 12, 1⟩ : HRow) ∈ dC9.modal ∧
      dC9.rpm 0 ≤ dC9.min_rpm ∧
      (⟨0, 1, 12, 1⟩ : HRow) ∉ remove_harmonics dC9) := by
  refine ⟨fun hr => remove_harmonics_mem_bounds d r hr, by simp [dC9],
    by norm_num [dC9], ?_⟩
  intro hmem
  have hlt := (remove_harmonics_mem_bounds dC9 _ hmem).1
  norm_num at hlt

/-- A detector with no harmonic orders whose single row is retained. -/
def dKeep : Detector :=
  ⟨[⟨0, 1, 0, 1⟩], fun _ => 0, [], 6, 1/10⟩

/-- C9 witness: applying the theorem to the retained row of `dKeep`. -/
theorem claim_C9_witness :
    (⟨0, 1, 0, 1⟩ : HRow).damping < 10 ∧ (⟨0, 1, 0, 1⟩ : HRow).frequency < 2 := by
  refine (claim_C9_value_filters dKeep ⟨0, 1, 0, 1⟩).1 ?_
  refine List.mem_filter.mpr ⟨?_, ?_⟩
  · refine List.mem_filter.mpr ⟨List.mem_filter.mpr ⟨by simp [dKeep], ?_⟩, ?_⟩
    · rw [decide_eq_true_eq]; norm_num
    · rw [decide_eq_true_eq]; norm_num
  · simp [isHarmonicRow, dKeep, listMin]

/-! ### `theoretical_harmonic` (C4)

The input here is a column-wise frame: a datetime-index flag, the index, and
named columns. `DataFrame.filter(regex='rpm')` keeps the columns whose name
contains "rpm". -/

/-- Boolean test whether `needle` starts `hay`. -/
def prefAt : List Char → List Char → Bool
  | [], _ => true
  | _ :: _, [] => false
  | a :: as, b :: bs => a == b && prefAt as bs

/-- Boolean test whether `needle` occurs inside `hay`. -/
def subAt (needle : List Char) : List Char → Bool
  | [] => needle.isEmpty
  | c :: tl => prefAt needle (c :: tl) || subAt needle tl

/-- Substring containment on strings (the effect of a plain-text
`regex` search such as `filter(regex='rpm')`). -/
def strContains (hay needle : String) : Bool := subAt needle.toList hay.toList

structure PTable where
  dtIndex : Bool
  index : List ℕ
  cols : List (String × List ℚ)
deriving DecidableEq

/-- `data.filter(regex='rpm')`: the columns whose name contains "rpm". -/
def filterRpm (t : PTable) : List (String × List ℚ) :=
  t.cols.filter (fun c => strContains c.1 "rpm")

/-- The generated column name `harmonic_{p}p`. -/
def harmName (p : ℕ) : String := "harmonic_" ++ toString p ++ "p"

/-- `theoretical_harmonic`. `rpm_data.empty` is true when the rpm selection
has no column or the frame has no row. The loop body
`harmonic_data[...] = (p/60) * rpm_data` assigns a DataFrame to a single
column: with exactly one rpm column it sets that product column, with two
or more pandas raises `ValueError` on the first iteration. -/
def theoretical_harmonic (data : PTable) (p_orders : List ℕ) :
    Except String PTable :=
  let rpm := filterRpm data
  if rpm.isEmpty || data.index.isEmpty then
    Except.error "No rpm data found in dataframe."
  else if ! data.dtIndex then
    Except.error "The rpm data does not have a datetime index."
  else
    match rpm with
    | [c] =>
      Except.ok ⟨data.dtIndex, data.index,
        p_orders.map (fun p => (harmName p, c.2.map (fun v => (p : ℚ) / 60 * v)))⟩
    | _ =>
      if p_orders.isEmpty then Except.ok ⟨data.dtIndex, data.index, []⟩
      else Except.error
        "Cannot set a DataFrame with multiple columns to the single column"

/-- A table with two rpm columns, a datetime index and one row. -/
def tMultiRpm : PTable := ⟨true, [0], [("rpm_a", [1]), ("rpm_b", [1])]⟩

/-- A table with an rpm column and a datetime index but no row. -/
def tNoRows : PTable := ⟨true, [], [("rpm", [])]⟩

/-- C4 counterexample: two tables satisfying the claim's hypotheses (at
least one rpm column, datetime index) on which `theoretical_harmonic`
raises instead of returning the per-order harmonic table: one with two rpm
columns (the single-column assignment raises), one with zero rows
(`rpm_data.empty` is true, so the no-rpm error is raised). -/
theorem claim_C4_counterexample :
    (filterRpm tMultiRpm ≠ [] ∧ tMultiRpm.dtIndex = true ∧
      theoretical_harmonic tMultiRpm [1] = Except.error
        "Cannot set a DataFrame with multiple columns to the single column") ∧
    (filterRpm tNoRows ≠ [] ∧ tNoRows.dtIndex = true ∧
      theoretical_harmonic tNoRows [1] = Except.error
        "No rpm data found in dataframe.") := by
  refine ⟨⟨?_, rfl, rfl⟩, ⟨?_, rfl, rfl⟩⟩ <;> decide

/-- C4 (amended): for a table with exactly one rpm column, at least one row
and a datetime index, `theoretical_harmonic` returns a table on the same
index with exactly one column `harmonic_{p}p` per order `p`, whose value at
every position is exactly `(p/60) * rpm`; with an empty rpm selection it
raises the no-rpm error, and with a non-datetime index (and a nonempty rpm
selection) it raises the index error. -/
theorem claim_C4_theoretical_harmonic (t : PTable) (ps : List ℕ) :
    (∀ c, filterRpm t = [c] → t.index ≠ [] → t.dtIndex = true →
      theoretical_harmonic t ps =
        Except.ok ⟨true, t.index,
          ps.map (fun p => (harmName p, c.2.map (fun v => (p : ℚ) / 60 * v)))⟩) ∧
    (((filterRpm t).isEmpty || t.index.isEmpty) = true →
      theoretical_harmonic t ps =
        Except.error "No rpm data found in dataframe.") ∧
    (((filterRpm t).isEmpty || t.index.isEmpty) = false → t.dtIndex = false →
      theoretical_harmonic t ps =
        Except.error "The rpm data does not have a datetime index.") := by
  refine ⟨?_, ?_, ?_⟩
  · intro c hc hidx hdt
    have hemp2 : (([c] : List (String × List ℚ)).isEmpty || t.index.isEmpty) = false := by
      cases hi : t.index with
      | nil => exact absurd hi hidx
      | cons a l => simp [hi]
    rw [theoretical_harmonic]
    simp [hc, hemp2, hdt]
    exact hidx
  · intro hempty
    rw [theoretical_harmonic]
    simp only [hempty, if_true]
  · intro hempty hdt
    rw [theoretical_harmonic]
    simp only [hempty, hdt, Bool.not_false, Bool.false_eq_true, if_false, if_true]

/-- A table with one rpm column, two rows and a datetime index. -/
def tOneRpm : PTable := ⟨true, [0, 1], [("rpm", [30, 60])]⟩

/-- C4 witness: on `tOneRpm` with orders 1 and 3 the theorem yields the
exact harmonic columns `(p/60) * rpm`. -/
theorem claim_C4_witness :
    theoretical_harmonic tOneRpm [1, 3] =
      Except.ok ⟨true, [0, 1],
        [("harmonic_1p", [1/2, 1]), ("harmonic_3p", [3/2, 3])]⟩ := by
  have h := (claim_C4_theoretical_harmonic tOneRpm [1, 3]).1 ("rpm", [30, 60])
    (by decide) (by simp [tOneRpm]) rfl
  rw [h]
  norm_num [tOneRpm]
  constructor <;> decide

/-! ## Part 3: `oma_clustering.py` — `data_selection`, `column_multiplier`,
`ModeClusterer.fit`

A modal table is a column-name list plus rows, each row an association list
from column name to value (reading a missing column yields pandas `KeyError`,
tracked through the column-name list; `cell` is the aligned read). The
clustering algorithm itself (sklearn `DBSCAN.fit`) is an external call,
abstracted as a function from the feature rows to the label vector. -/

abbrev MRow := List (String × ℚ)

/-- Read one cell of a row. -/
def cell (r : MRow) (c : String) : ℚ := (r.lookup c).getD 0

/-- `frame[cols]`: column selection, row-wise. -/
def selectCols (cols : List String) (r : MRow) : MRow :=
  cols.map (fun c => (c, cell r c))

/-- Key-preserving value transformation of a row (the row-wise effect of a
column-wise pandas assignment). -/
def mapVals (g : String → ℚ → ℚ) (r : MRow) : MRow :=
  r.map (fun kv => (kv.1, g kv.1 kv.2))

/-- One loop step of `column_multiplier`: if the key contains "damping" add 1,
then multiply by the configured multiplier — applied to the column `key`. -/
def applyMultiplier (key : String) (m : ℚ) : MRow → MRow :=
  mapVals (fun k v =>
    if k = key then (if strContains key "damping" then v + 1 else v) * m else v)

/-- The `for key in multipliers` loop; reading a column absent from the
selected frame raises `KeyError`. -/
def applyMultipliers : List (String × ℚ) → List String → List MRow →
    Except String (List MRow)
  | [], _, rows => Except.ok rows
  | (k, m) :: rest, cols, rows =>
    if k ∈ cols then applyMultipliers rest cols (rows.map (applyMultiplier k m))
    else Except.error ("KeyError: " ++ k)

/-- `frame[k] = v`: overwrite the column if present, else append it. -/
def setCell (r : MRow) (k : String) (v : ℚ) : MRow :=
  if (r.lookup k).isSome then mapVals (fun k2 v2 => if k2 = k then v else v2) r
  else r ++ [(k, v)]

/-- `multiplied_data["time_diff"] = (index - index[0]) / index_divider`:
after `reset_index` the index is the row position starting at 0. -/
def addTimeDiffFrom (d : ℚ) : ℕ → List MRow → List MRow
  | _, [] => []
  | i, r :: rs => setCell r "time_diff" ((i : ℚ) / d) :: addTimeDiffFrom d (i + 1) rs

/-- `column_multiplier`. -/
def column_multiplier (rows : List MRow) (cols : List String)
    (multipliers : List (String × ℚ)) (index_divider : Option ℚ) :
    Except String (List MRow) :=
  match applyMultipliers multipliers cols (rows.map (selectCols cols)) with
  | Except.error e => Except.error e
  | Except.ok multiplied =>
    match index_divider with
    | none => Except.ok multiplied
    | some d => Except.ok (addTimeDiffFrom d 0 multiplied)

/-- `data_selection`: keep rows with `size > min_size`, then filter on
`damping` if that column exists, else on `mean_damping`, else `KeyError`. -/
def data_selection (modalCols : List String) (rows : List MRow)
    (min_size max_damping : ℚ) : Except String (List MRow) :=
  if "size" ∉ modalCols then Except.error "KeyError: size"
  else
    let bySize := rows.filter (fun r => decide (min_size < cell r "size"))
    if "damping" ∈ modalCols then
      Except.ok (bySize.filter (fun r => decide (cell r "damping" < max_damping)))
    else if "mean_damping" ∈ modalCols then
      Except.ok (bySize.filter (fun r => decide (cell r "mean_damping" < max_damping)))
    else
      Except.error
        "KeyError: The modal data does not contain the column damping or mean_damping."

/-- `utils.check_columns`. -/
def check_columns (cols modalCols : List String) : Bool :=
  cols.all (fun c => modalCols.contains c)

/-- The frequency-column fallback of `fit`: `mean_frequency`, else
`frequency`, else an error. -/
def freqCol (modalCols : List String) : Option String :=
  if "mean_frequency" ∈ modalCols then some "mean_frequency"
  else if "frequency" ∈ modalCols then some "frequency" else none

/-- The optional `frequency_range` pre-filter of `fit`. -/
def freqFilter (fcol : String) (fr : Option (ℚ × ℚ)) (rows : List MRow) :
    List MRow :=
  match fr with
  | none => rows
  | some lh =>
    rows.filter (fun r => decide (lh.1 ≤ cell r fcol) && decide (cell r fcol ≤ lh.2))

/-- The validation / pre-filter / candidate-selection phase of
`ModeClusterer.fit`, up to and including `data_selection`. -/
def fitSelected (modalCols : List String) (rows : List MRow)
    (cols : List String) (min_size max_damping : ℚ)
    (frequency_range : Option (ℚ × ℚ)) : Except String (List MRow) :=
  if ! check_columns cols modalCols then
    Except.error "The modal data does not contain all the required columns."
  else
    match freqCol modalCols with
    | none =>
      Except.error
        "No frequency data found in dataframe. Columns mean_frequency or frequency required."
    | some fcol =>
      data_selection modalCols (freqFilter fcol frequency_range rows)
        min_size max_damping

/-- `ModeClusterer.fit`: select candidates, build the multiplied feature
frame, run the clusterer on `multiplied_dbscan_data[self.cols]`, and attach
the resulting labels to the (original-scale) selected rows. -/
def fit (clusterFn : List MRow → List ℤ) (modalCols : List String)
    (rows : List MRow) (cols : List String)
    (multipliers : List (String × ℚ)) (index_divider : Option ℚ)
    (min_size max_damping : ℚ) (frequency_range : Option (ℚ × ℚ)) :
    Except String (List (MRow × ℤ)) :=
  match fitSelected modalCols rows cols min_size max_damping frequency_range with
  | Except.error e => Except.error e
  | Except.ok selected =>
    match column_multiplier selected cols multipliers index_divider with
    | Except.error e => Except.error e
    | Except.ok multiplied =>
      Except.ok (List.zipWith (fun r l => (r, l)) selected
        (clusterFn (multiplied.map (selectCols cols))))

/-- Rescaling of the raw `size` column by a factor `s`. -/
def scaleRow (s : ℚ) : MRow → MRow :=
  mapVals (fun k v => if k = "size" then s * v else v)

/-! ### Row-level lemmas -/

lemma lookup_mapVals (g : String → ℚ → ℚ) (r : MRow) (c : String) :
    (mapVals g r).lookup c = (r.lookup c).map (g c) := by
  induction r with
  | nil => rfl
  | cons kv tl ih =>
    rw [mapVals, List.map_cons, List.lookup, List.lookup]
    cases hbeq : c == kv.1 with
    | true =>
      have hc : c = kv.1 := by simpa using hbeq
      subst hc
      rfl
    | false =>
      rw [← mapVals]
      exact ih

lemma cell_mapVals (g : String → ℚ → ℚ) (r : MRow) (c : String)
    (h0 : g c 0 = 0) : cell (mapVals g r) c = g c (cell r c) := by
  rw [cell, cell, lookup_mapVals]
  cases r.lookup c with
  | none => simpa using h0.symm
  | some v => rfl

lemma lookup_append_single_ne (r : MRow) (k : String) (v : ℚ) (c : String)
    (h : c ≠ k) : (r ++ [(k, v)]).lookup c = r.lookup c := by
  induction r with
  | nil =>
    rw [List.nil_append, List.lookup, List.lookup]
    cases hbeq : c == k with
    | true => exact absurd (by simpa using hbeq) h
    | false => rfl
  | cons kv tl ih =>
    rw [List.cons_append, List.lookup, List.lookup]
    cases c == kv.1 with
    | true => rfl
    | false => exact ih

lemma cell_setCell_ne (r : MRow) (k : String) (v : ℚ) (c : String)
    (h : c ≠ k) : cell (setCell r k v) c = cell r c := by
  rw [setCell]
  by_cases hs : (r.lookup k).isSome
  · rw [if_pos hs, cell, cell, lookup_mapVals]
    cases r.lookup c with
    | none => rfl
    | some w => simp [h]
  · rw [if_neg hs, cell, cell, lookup_append_single_ne r k v c h]

lemma selectCols_setCell_ne (cols : List String) (r : MRow) (k : String)
    (v : ℚ) (hk : k ∉ cols) :
    selectCols cols (setCell r k v) = selectCols cols r := by
  rw [selectCols, selectCols]
  refine List.map_congr_left ?_
  intro c hc
  have hck : c ≠ k := fun he => hk (he ▸ hc)
  rw [cell_setCell_ne r k v c hck]

lemma map_selectCols_addTimeDiff (cols : List String) (d : ℚ)
    (h : "time_diff" ∉ cols) :
    ∀ (i : ℕ) (rows : List MRow),
      (addTimeDiffFrom d i rows).map (selectCols cols) =
        rows.map (selectCols cols) := by
  intro i rows
  induction rows generalizing i with
  | nil => rfl
  | cons r rs ih =>
    rw [addTimeDiffFrom, List.map_cons, List.map_cons,
      selectCols_setCell_ne cols r _ _ h, ih]

/-- C6: `column_multiplier` with a divider appends the synthetic `time_diff`
column, equal to (row position − first row position) / divider; but `fit`
then clusters on `multiplied_dbscan_data[self.cols]`, so whenever
`"time_diff"` is not itself in `cols` (as with the default columns
`frequency, size, damping`) the entire result of `fit` — feature matrix
given to the clusterer, labels, stored rows — is identical with and without
`index_divider`. -/
theorem claim_C6_time_diff (clusterFn : List MRow → List ℤ)
    (modalCols : List String) (rows : List MRow) (cols : List String)
    (multipliers : List (String × ℚ)) (d : ℚ) (min_size max_damping : ℚ)
    (frequency_range : Option (ℚ × ℚ)) :
    column_multiplier rows cols multipliers (some d) =
      Except.map (addTimeDiffFrom d 0)
        (column_multiplier rows cols multipliers none) ∧
    ("time_diff" ∉ cols →
      fit clusterFn modalCols rows cols multipliers (some d)
          min_size max_damping frequency_range =
        fit clusterFn modalCols rows cols multipliers none
          min_size max_damping frequency_range) := by
  constructor
  · rw [column_multiplier, column_multiplier]
    cases applyMultipliers multipliers cols (rows.map (selectCols cols)) with
    | error e => rfl
    | ok m => rfl
  · intro hcols
    rw [fit, fit]
    cases fitSelected modalCols rows cols min_size max_damping frequency_range with
    | error e => rfl
    | ok selected =>
      simp only [column_multiplier]
      cases applyMultipliers multipliers cols (selected.map (selectCols cols)) with
      | error e => rfl
      | ok m =>
        dsimp only
        rw [map_selectCols_addTimeDiff cols d hcols 0 m]

/-- C6 witness: a concrete fit (single row, default columns and multipliers,
constant clusterer) is unchanged by `index_divider = 2`. -/
theorem claim_C6_witness :
    fit (fun rs => rs.map (fun _ => 0)) ["frequency", "size", "damping"]
        [[("frequency", 1), ("size", 6), ("damping", 0)]]
        ["frequency", "size", "damping"]
        [("frequency", 40), ("size", 1/2), ("damping", 1)] (some 2) 5 5 none =
      fit (fun rs => rs.map (fun _ => 0)) ["frequency", "size", "damping"]
        [[("frequency", 1), ("size", 6), ("damping", 0)]]
        ["frequency", "size", "damping"]
        [("frequency", 40), ("size", 1/2), ("damping", 1)] none 5 5 none :=
  (claim_C6_time_diff (fun rs => rs.map (fun _ => 0))
    ["frequency", "size", "damping"]
    [[("frequency", 1), ("size", 6), ("damping", 0)]]
    ["frequency", "size", "damping"]
    [("frequency", 40), ("size", 1/2), ("damping", 1)] 2 5 5 none).2
    (by decide)

/-- `data_selection` errors whenever both damping columns are absent. -/
lemma data_selection_error (modalCols : List String) (rows : List MRow)
    (ms md : ℚ) (h1 : "damping" ∉ modalCols) (h2 : "mean_damping" ∉ modalCols) :
    ∃ e, data_selection modalCols rows ms md = Except.error e := by
  rw [data_selection]
  by_cases hs : "size" ∉ modalCols
  · exact ⟨_, if_pos hs⟩
  · rw [if_neg hs, if_neg h1, if_neg h2]
    exact ⟨_, rfl⟩

/-- `Except.isOk` as a plain Boolean observer. -/
def exceptIsOk {ε α : Type _} : Except ε α → Bool
  | Except.ok _ => true
  | Except.error _ => false

/-- C8: candidate selection keeps exactly the rows with `size > min_size`
and damping `< max_damping`, the damping column being `damping` when
present (regardless of `mean_damping`), else `mean_damping`; when neither
is present `data_selection` raises `KeyError`, and `fit` on such a table
always returns an error — never a (partial) result. -/
theorem claim_C8_data_selection (modalCols : List String) (rows : List MRow)
    (ms md : ℚ) :
    ("size" ∈ modalCols → "damping" ∈ modalCols →
      data_selection modalCols rows ms md =
        Except.ok ((rows.filter (fun r => decide (ms < cell r "size"))).filter
          (fun r => decide (cell r "damping" < md)))) ∧
    ("size" ∈ modalCols → "damping" ∉ modalCols → "mean_damping" ∈ modalCols →
      data_selection modalCols rows ms md =
        Except.ok ((rows.filter (fun r => decide (ms < cell r "size"))).filter
          (fun r => decide (cell r "mean_damping" < md)))) ∧
    ("size" ∈ modalCols → "damping" ∉ modalCols → "mean_damping" ∉ modalCols →
      data_selection modalCols rows ms md = Except.error
        "KeyError: The modal data does not contain the column damping or mean_damping.") ∧
    (∀ (clusterFn : List MRow → List ℤ) (cols : List String)
        (multipliers : List (String × ℚ)) (dvd : Option ℚ)
        (fr : Option (ℚ × ℚ)),
      "damping" ∉ modalCols → "mean_damping" ∉ modalCols →
      ∃ e, fit clusterFn modalCols rows cols multipliers dvd ms md fr =
        Except.error e) := by
  refine ⟨?_, ?_, ?_, ?_⟩
  · intro hsz hd
    rw [data_selection, if_neg (fun h => h hsz), if_pos hd]
  · intro hsz hd hmd
    rw [data_selection, if_neg (fun h => h hsz), if_neg hd, if_pos hmd]
  · intro hsz hd hmd
    rw [data_selection, if_neg (fun h => h hsz), if_neg hd, if_neg hmd]
  · intro clusterFn cols multipliers dvd fr hd hmd
    rw [fit, fitSelected]
    cases hcc : check_columns cols modalCols with
    | false => exact ⟨_, rfl⟩
    | true =>
      rw [Bool.not_true]
      simp only [Bool.false_eq_true, if_false]
      cases hfc : freqCol modalCols with
      | none => exact ⟨_, rfl⟩
      | some fcol =>
        obtain ⟨e, he⟩ := data_selection_error modalCols
          (freqFilter fcol fr rows) ms md hd hmd
        dsimp only
        rw [he]
        exact ⟨e, rfl⟩

/-- C8 witness: fitting a table whose columns are only `frequency` and
`size` returns an error (here `check_columns` on the configured columns
fails first; the data-selection `KeyError` clauses are exercised with
matching configured columns). -/
theorem claim_C8_witness :
    exceptIsOk (fit (fun rs => rs.map (fun _ => 0)) ["frequency", "size"]
      [[("frequency", 1), ("size", 6)]] ["frequency", "size"]
      [("frequency", 40), ("size", 1/2)] none 5 5 none) = false := by
  obtain ⟨e, he⟩ := (claim_C8_data_selection ["frequency", "size"]
    [[("frequency", 1), ("size", 6)]] 5 5).2.2.2 (fun rs => rs.map (fun _ => 0))
    ["frequency", "size"] [("frequency", 40), ("size", 1/2)] none none
    (by decide) (by decide)
  rw [he]
  rfl

/-! ### Commutation of the pipeline with a rescaling of the raw size column
(for C7) -/

lemma mapVals_mapVals (g1 g2 : String → ℚ → ℚ) (r : MRow) :
    mapVals g1 (mapVals g2 r) = mapVals (fun k v => g1 k (g2 k v)) r := by
  rw [mapVals, mapVals, mapVals, List.map_map]
  rfl

lemma mapVals_congr (g1 g2 : String → ℚ → ℚ) (r : MRow)
    (h : ∀ kv ∈ r, g1 kv.1 kv.2 = g2 kv.1 kv.2) :
    mapVals g1 r = mapVals g2 r := by
  rw [mapVals, mapVals]
  exact List.map_congr_left (fun kv hkv => by rw [h kv hkv])

lemma cell_scaleRow_ne (s : ℚ) (r : MRow) (c : String) (h : c ≠ "size") :
    cell (scaleRow s r) c = cell r c := by
  rw [scaleRow, cell_mapVals _ _ _ (by simp [h])]
  rw [if_neg h]

lemma cell_scaleRow_size (s : ℚ) (r : MRow) :
    cell (scaleRow s r) "size" = s * cell r "size" := by
  rw [scaleRow, cell_mapVals _ _ _ (by simp)]
  rw [if_pos rfl]

lemma selectCols_scaleRow (cols : List String) (s : ℚ) (r : MRow) :
    selectCols cols (scaleRow s r) = scaleRow s (selectCols cols r) := by
  have hrhs : scaleRow s (selectCols cols r) =
      cols.map (fun c => (c, if c = "size" then s * cell r c else cell r c)) := by
    rw [selectCols, scaleRow, mapVals, List.map_map]
    rfl
  rw [selectCols, hrhs]
  refine List.map_congr_left ?_
  intro c _
  by_cases hc : c = "size"
  · rw [hc, cell_scaleRow_size, if_pos rfl]
  · rw [cell_scaleRow_ne s r c hc, if_neg hc]

lemma applyMultiplier_scaleRow (key : String) (m s : ℚ) (r : MRow) :
    applyMultiplier key m (scaleRow s r) = scaleRow s (applyMultiplier key m r) := by
  rw [applyMultiplier, scaleRow, mapVals_mapVals, mapVals_mapVals]
  refine mapVals_congr _ _ r ?_
  intro kv _
  by_cases hk : kv.1 = key
  · by_cases hsz : kv.1 = "size"
    · have hkey : key = "size" := by rw [← hk, hsz]
      have hdmp : strContains key "damping" = false := by rw [hkey]; decide
      rw [if_pos hk, if_pos hsz, if_pos hk, hdmp]
      simp only [Bool.false_eq_true, if_false]
      rw [if_pos hsz]
      ring
    · rw [if_pos hk, if_neg hsz, if_pos hk, if_neg hsz]
  · by_cases hsz : kv.1 = "size"
    · rw [if_neg hk, if_pos hsz, if_pos hsz, if_neg hk]
    · rw [if_neg hk, if_neg hsz, if_neg hsz, if_neg hk]

lemma map_applyMultipliers_scaleRow (mults : List (String × ℚ))
    (cols : List String) (s : ℚ) :
    ∀ rows : List MRow,
      applyMultipliers mults cols (rows.map (scaleRow s)) =
        Except.map (List.map (scaleRow s)) (applyMultipliers mults cols rows) := by
  induction mults with
  | nil => intro rows; rfl
  | cons km rest ih =>
    intro rows
    rw [applyMultipliers, applyMultipliers]
    by_cases hk : km.1 ∈ cols
    · rw [if_pos hk, if_pos hk]
      have hcomm : (rows.map (scaleRow s)).map (applyMultiplier km.1 km.2) =
          (rows.map (applyMultiplier km.1 km.2)).map (scaleRow s) := by
        rw [List.map_map, List.map_map]
        exact List.map_congr_left
          (fun r _ => applyMultiplier_scaleRow km.1 km.2 s r)
      rw [hcomm]
      exact ih _
    · rw [if_neg hk, if_neg hk]
      rfl

lemma setCell_timeDiff_scaleRow (s : ℚ) (r : MRow) (x : ℚ) :
    setCell (scaleRow s r) "time_diff" x = scaleRow s (setCell r "time_diff" x) := by
  have hlk : ((scaleRow s r).lookup "time_diff").isSome =
      (r.lookup "time_diff").isSome := by
    rw [scaleRow, lookup_mapVals]
    cases r.lookup "time_diff" <;> rfl
  rw [setCell, setCell, hlk]
  by_cases hs : (r.lookup "time_diff").isSome
  · rw [if_pos hs, if_pos hs, scaleRow, mapVals_mapVals, mapVals_mapVals]
    refine mapVals_congr _ _ r ?_
    intro kv _
    by_cases htd : kv.1 = "time_diff"
    · have hsz : ¬ kv.1 = "size" := by rw [htd]; decide
      rw [if_pos htd, if_neg hsz, if_pos htd]
    · by_cases hsz : kv.1 = "size"
      · rw [if_neg htd, if_pos hsz, if_pos hsz, if_neg htd]
      · rw [if_neg htd, if_neg hsz, if_neg hsz, if_neg htd]
  · rw [if_neg hs, if_neg hs]
    simp only [scaleRow, mapVals, List.map_append]
    rfl

/-- All entries of the row that sit in the `size` column are zero. -/
def sizeZero (r : MRow) : Prop := ∀ kv ∈ r, kv.1 = "size" → kv.2 = 0

lemma lookup_mem (r : MRow) (c : String) (v : ℚ) (h : r.lookup c = some v) :
    (c, v) ∈ r := by
  induction r with
  | nil => simp [List.lookup] at h
  | cons kv tl ih =>
    rw [List.lookup] at h
    cases hbeq : c == kv.1 with
    | true =>
      rw [hbeq] at h
      have hc : c = kv.1 := by simpa using hbeq
      have hv : kv.2 = v := by injection h
      rw [hc, ← hv]
      exact List.mem_cons_self _ _
    | false =>
      rw [hbeq] at h
      exact List.mem_cons_of_mem _ (ih h)

lemma cell_eq_zero_of_sizeZero (r : MRow) (h : sizeZero r) :
    cell r "size" = 0 := by
  rw [cell]
  cases hl : r.lookup "size" with
  | none => rfl
  | some v => exact h ("size", v) (lookup_mem r _ v hl) rfl

lemma sizeZero_applyMultiplier_zero (r : MRow) :
    sizeZero (applyMultiplier "size" 0 r) := by
  intro kv hkv hsz
  rcases List.mem_map.mp hkv with ⟨kv0, _, heq⟩
  have h1 : kv.1 = kv0.1 := by rw [← heq]
  have h2 : kv.2 = if kv0.1 = "size" then
      (if strContains "size" "damping" then kv0.2 + 1 else kv0.2) * 0 else kv0.2 := by
    rw [← heq]
  rw [h2, if_pos (h1 ▸ hsz), mul_zero]

lemma sizeZero_applyMultiplier_ne (k : String) (m : ℚ) (hk : k ≠ "size")
    (r : MRow) (h : sizeZero r) : sizeZero (applyMultiplier k m r) := by
  intro kv hkv hsz
  rcases List.mem_map.mp hkv with ⟨kv0, hkv0, heq⟩
  have h1 : kv.1 = kv0.1 := by rw [← heq]
  have hne : ¬ kv0.1 = k := by
    rw [← h1, hsz]; exact fun he => hk he.symm
  have h2 : kv.2 = kv0.2 := by
    rw [← heq]; simp [hne]
  rw [h2]
  exact h kv0 hkv0 (h1 ▸ hsz)

lemma sizeZero_applyMultipliers_no_size :
    ∀ (mults : List (String × ℚ)) (cols : List String) (rows rows' : List MRow),
      applyMultipliers mults cols rows = Except.ok rows' →
      "size" ∉ mults.map Prod.fst → (∀ r ∈ rows, sizeZero r) →
      ∀ r ∈ rows', sizeZero r := by
  intro mults
  induction mults with
  | nil =>
    intro cols rows rows' h _ hz
    have : rows = rows' := by injection h
    exact this ▸ hz
  | cons km rest ih =>
    intro cols rows rows' h hks hz
    rw [applyMultipliers] at h
    by_cases hk : km.1 ∈ cols
    · rw [if_pos hk] at h
      refine ih cols _ rows' h (fun hmem => hks ?_) ?_
      · exact List.mem_cons_of_mem _ hmem
      · intro r hr
        rcases List.mem_map.mp hr with ⟨r0, hr0, heq⟩
        have hkne : km.1 ≠ "size" := by
          intro he
          exact hks (List.mem_cons.mpr (Or.inl he.symm))
        exact heq ▸ sizeZero_applyMultiplier_ne km.1 km.2 hkne r0 (hz r0 hr0)
    · rw [if_neg hk] at h
      exact absurd h (by simp)

lemma sizeZero_applyMultipliers :
    ∀ (mults : List (String × ℚ)) (cols : List String) (rows rows' : List MRow),
      applyMultipliers mults cols rows = Except.ok rows' →
      ("size", (0 : ℚ)) ∈ mults → (mults.map Prod.fst).Nodup →
      ∀ r ∈ rows', sizeZero r := by
  intro mults
  induction mults with
  | nil => intro cols rows rows' _ h0; exact absurd h0 (List.not_mem_nil _)
  | cons km rest ih =>
    intro cols rows rows' h h0 hnd
    rw [applyMultipliers] at h
    by_cases hk : km.1 ∈ cols
    · rw [if_pos hk] at h
      rcases List.mem_cons.mp h0 with hhead | htail
      · have hk1 : km.1 = "size" := by rw [← hhead]
        have hk2 : km.2 = 0 := by rw [← hhead]
        have hnos : "size" ∉ rest.map Prod.fst := by
          have := (List.nodup_cons.mp hnd).1
          rw [hk1] at this
          exact this
        refine sizeZero_applyMultipliers_no_size rest cols _ rows' h hnos ?_
        intro r hr
        rcases List.mem_map.mp hr with ⟨r0, _, heq⟩
        have : applyMultiplier km.1 km.2 r0 = applyMultiplier "size" 0 r0 := by
          rw [hk1, hk2]
        rw [← heq, this]
        exact sizeZero_applyMultiplier_zero r0
      · exact ih cols _ rows' h htail (List.nodup_cons.mp hnd).2
    · rw [if_neg hk] at h
      exact absurd h (by simp)

lemma sizeZero_setCell_timeDiff (r : MRow) (x : ℚ) (h : sizeZero r) :
    sizeZero (setCell r "time_diff" x) := by
  rw [setCell]
  by_cases hs : (r.lookup "time_diff").isSome
  · rw [if_pos hs]
    intro kv hkv hsz
    rcases List.mem_map.mp hkv with ⟨kv0, hkv0, heq⟩
    have h1 : kv.1 = kv0.1 := by rw [← heq]
    have hne : ¬ kv0.1 = "time_diff" := by
      rw [← h1, hsz]; decide
    have h2 : kv.2 = kv0.2 := by rw [← heq]; simp [hne]
    rw [h2]
    exact h kv0 hkv0 (h1 ▸ hsz)
  · rw [if_neg hs]
    intro kv hkv hsz
    rcases List.mem_append.mp hkv with hmem | hmem
    · exact h kv hmem hsz
    · have heq : kv = ("time_diff", x) := by simpa using hmem
      rw [heq] at hsz
      simp at hsz

lemma sizeZero_addTimeDiff (d : ℚ) :
    ∀ (i : ℕ) (rows : List MRow), (∀ r ∈ rows, sizeZero r) →
      ∀ r ∈ addTimeDiffFrom d i rows, sizeZero r := by
  intro i rows
  induction rows generalizing i with
  | nil => intro _ r hr; simp [addTimeDiffFrom] at hr
  | cons r0 rs ih =>
    intro hz r hr
    rw [addTimeDiffFrom] at hr
    rcases List.mem_cons.mp hr with hh | ht
    · exact hh ▸ sizeZero_setCell_timeDiff r0 _ (hz r0 (List.mem_cons_self _ _))
    · exact ih (i + 1) (fun q hq => hz q (List.mem_cons_of_mem _ hq)) r ht

lemma column_multiplier_sizeZero (rows : List MRow) (cols : List String)
    (mults : List (String × ℚ)) (idx : Option ℚ) (m : List MRow)
    (h : column_multiplier rows cols mults idx = Except.ok m)
    (h0 : ("size", (0 : ℚ)) ∈ mults) (hnd : (mults.map Prod.fst).Nodup) :
    ∀ r ∈ m, sizeZero r := by
  rw [column_multiplier] at h
  cases happ : applyMultipliers mults cols (rows.map (selectCols cols)) with
  | error e => rw [happ] at h; exact absurd h (by simp)
  | ok m0 =>
    rw [happ] at h
    have hz0 : ∀ r ∈ m0, sizeZero r :=
      sizeZero_applyMultipliers mults cols _ m0 happ h0 hnd
    cases idx with
    | none =>
      have : m0 = m := by injection h
      exact this ▸ hz0
    | some d =>
      have : addTimeDiffFrom d 0 m0 = m := by injection h
      exact this ▸ sizeZero_addTimeDiff d 0 m0 hz0

lemma scaleRow_eq_of_sizeZero (s : ℚ) (r : MRow) (h : sizeZero r) :
    scaleRow s r = r := by
  rw [scaleRow, mapVals]
  have hcongr : ∀ kv ∈ r, ((fun kv : String × ℚ =>
      (kv.1, if kv.1 = "size" then s * kv.2 else kv.2)) kv) = kv := by
    intro kv hkv
    show (kv.1, if kv.1 = "size" then s * kv.2 else kv.2) = kv
    by_cases hsz : kv.1 = "size"
    · have hz := h kv hkv hsz
      rw [if_pos hsz, hz, mul_zero, ← hz]
    · rw [if_neg hsz]
  rw [List.map_congr_left hcongr]
  simp

lemma sizeZero_selectCols (cols : List String) (r : MRow) (h : sizeZero r) :
    sizeZero (selectCols cols r) := by
  intro kv hkv hsz
  rcases List.mem_map.mp hkv with ⟨c, _, heq⟩
  have h1 : kv.1 = c := by rw [← heq]
  have h2 : kv.2 = cell r c := by rw [← heq]
  rw [h2, ← h1, hsz]
  exact cell_eq_zero_of_sizeZero r h

lemma freqCol_ne_size (modalCols : List String) (fcol : String)
    (h : freqCol modalCols = some fcol) : fcol ≠ "size" := by
  rw [freqCol] at h
  by_cases h1 : "mean_frequency" ∈ modalCols
  · rw [if_pos h1] at h
    have : "mean_frequency" = fcol := by injection h
    rw [← this]; decide
  · rw [if_neg h1] at h
    by_cases h2 : "frequency" ∈ modalCols
    · rw [if_pos h2] at h
      have : "frequency" = fcol := by injection h
      rw [← this]; decide
    · rw [if_neg h2] at h
      exact absurd h (by simp)

lemma mem_of_mem_freqFilter (fcol : String) (fr : Option (ℚ × ℚ))
    (rows : List MRow) (r : MRow) (h : r ∈ freqFilter fcol fr rows) :
    r ∈ rows := by
  cases fr with
  | none => exact h
  | some lh => exact (List.mem_filter.mp h).1

lemma freqFilter_scaleRow (fcol : String) (fr : Option (ℚ × ℚ))
    (rows : List MRow) (s : ℚ) (hf : fcol ≠ "size") :
    freqFilter fcol fr (rows.map (scaleRow s)) =
      (freqFilter fcol fr rows).map (scaleRow s) := by
  cases fr with
  | none => rfl
  | some lh =>
    rw [freqFilter, freqFilter, List.filter_map]
    refine congrArg _ (List.filter_congr ?_)
    intro r _
    show (decide (lh.1 ≤ cell (scaleRow s r) fcol) &&
        decide (cell (scaleRow s r) fcol ≤ lh.2)) = _
    rw [cell_scaleRow_ne s r fcol hf]

lemma filter_cell_lt_scaleRow (c : String) (hc : c ≠ "size") (md s : ℚ)
    (l : List MRow) :
    (l.map (scaleRow s)).filter (fun r => decide (cell r c < md)) =
      (l.filter (fun r => decide (cell r c < md))).map (scaleRow s) := by
  rw [List.filter_map]
  refine congrArg _ (List.filter_congr ?_)
  intro r _
  show decide (cell (scaleRow s r) c < md) = _
  rw [cell_scaleRow_ne s r c hc]

lemma data_selection_scaleRow (modalCols : List String) (rows : List MRow)
    (ms md s : ℚ)
    (hsel : ∀ r ∈ rows, (ms < cell r "size" ↔ ms < cell (scaleRow s r) "size")) :
    data_selection modalCols (rows.map (scaleRow s)) ms md =
      Except.map (List.map (scaleRow s)) (data_selection modalCols rows ms md) := by
  rw [data_selection, data_selection]
  by_cases hsz : "size" ∉ modalCols
  · rw [if_pos hsz, if_pos hsz]; rfl
  · rw [if_neg hsz, if_neg hsz]
    have hbySize : (rows.map (scaleRow s)).filter
        (fun r => decide (ms < cell r "size")) =
        (rows.filter (fun r => decide (ms < cell r "size"))).map (scaleRow s) := by
      rw [List.filter_map]
      refine congrArg _ (List.filter_congr ?_)
      intro r hr
      show decide (ms < cell (scaleRow s r) "size") = _
      exact decide_eq_decide.mpr (hsel r hr).symm
    rw [hbySize]
    by_cases hd : "damping" ∈ modalCols
    · rw [if_pos hd, if_pos hd,
        filter_cell_lt_scaleRow "damping" (by decide) md s]
      rfl
    · rw [if_neg hd, if_neg hd]
      by_cases hmd : "mean_damping" ∈ modalCols
      · rw [if_pos hmd, if_pos hmd,
          filter_cell_lt_scaleRow "mean_damping" (by decide) md s]
        rfl
      · rw [if_neg hmd, if_neg hmd]
        rfl

lemma fitSelected_scaleRow (modalCols : List String) (rows : List MRow)
    (cols : List String) (ms md s : ℚ) (fr : Option (ℚ × ℚ))
    (hsel : ∀ r ∈ rows, (ms < cell r "size" ↔ ms < cell (scaleRow s r) "size")) :
    fitSelected modalCols (rows.map (scaleRow s)) cols ms md fr =
      Except.map (List.map (scaleRow s)) (fitSelected modalCols rows cols ms md fr) := by
  rw [fitSelected, fitSelected]
  cases hcc : check_columns cols modalCols with
  | false => rfl
  | true =>
    rw [Bool.not_true]
    simp only [Bool.false_eq_true, if_false]
    cases hfc : freqCol modalCols with
    | none => rfl
    | some fcol =>
      dsimp only
      rw [freqFilter_scaleRow fcol fr rows s (freqCol_ne_size modalCols fcol hfc)]
      exact data_selection_scaleRow modalCols (freqFilter fcol fr rows) ms md s
        (fun r hr => hsel r (mem_of_mem_freqFilter fcol fr rows r hr))

lemma addTimeDiff_scaleRow (d s : ℚ) :
    ∀ (i : ℕ) (rows : List MRow),
      addTimeDiffFrom d i (rows.map (scaleRow s)) =
        (addTimeDiffFrom d i rows).map (scaleRow s) := by
  intro i rows
  induction rows generalizing i with
  | nil => rfl
  | cons r rs ih =>
    rw [List.map_cons, addTimeDiffFrom, addTimeDiffFrom, List.map_cons,
      setCell_timeDiff_scaleRow, ih]

lemma column_multiplier_scaleRow (rows : List MRow) (cols : List String)
    (mults : List (String × ℚ)) (idx : Option ℚ) (s : ℚ) :
    column_multiplier (rows.map (scaleRow s)) cols mults idx =
      Except.map (List.map (scaleRow s)) (column_multiplier rows cols mults idx) := by
  rw [column_multiplier, column_multiplier]
  have hbase : (rows.map (scaleRow s)).map (selectCols cols) =
      (rows.map (selectCols cols)).map (scaleRow s) := by
    rw [List.map_map, List.map_map]
    exact List.map_congr_left (fun r _ => selectCols_scaleRow cols s r)
  rw [hbase, map_applyMultipliers_scaleRow]
  cases applyMultipliers mults cols (rows.map (selectCols cols)) with
  | error e => rfl
  | ok m0 =>
    cases idx with
    | none => rfl
    | some d =>
      dsimp only [Except.map]
      rw [addTimeDiff_scaleRow d s 0 m0]

lemma zipWith_pair_map_left (f : MRow → MRow) :
    ∀ (xs : List MRow) (ls : List ℤ),
      List.zipWith (fun r l => (r, l)) (xs.map f) ls =
        (List.zipWith (fun r l => (r, l)) xs ls).map (fun rl => (f rl.1, rl.2)) := by
  intro xs
  induction xs with
  | nil => intro ls; rfl
  | cons x tl ih =>
    intro ls
    cases ls with
    | nil => rfl
    | cons l ltl =>
      rw [List.map_cons, List.zipWith_cons_cons, List.zipWith_cons_cons,
        List.map_cons, ih]

/-- C7 (amended): when the `size` multiplier is configured as 0 (and the
multiplier keys are distinct, as `dict` keys are), rescaling the raw `size`
column by any factor that does not change the outcome of the
`size > min_size` candidate selection yields a `fit` result with exactly
the same error/success status, the same label for every row, and the same
rows up to the size rescaling itself. Without the selection proviso this
fails (see the counterexample): `data_selection` thresholds the raw size
before the multiplier is applied. -/
theorem claim_C7_scale_invariance (clusterFn : List MRow → List ℤ)
    (modalCols : List String) (rows : List MRow) (cols : List String)
    (multipliers : List (String × ℚ)) (idx : Option ℚ) (ms md : ℚ)
    (fr : Option (ℚ × ℚ)) (s : ℚ)
    (hnd : (multipliers.map Prod.fst).Nodup)
    (h0 : ("size", (0 : ℚ)) ∈ multipliers)
    (hsel : ∀ r ∈ rows, (ms < cell r "size" ↔ ms < cell (scaleRow s r) "size")) :
    fit clusterFn modalCols (rows.map (scaleRow s)) cols multipliers idx ms md fr =
      Except.map (List.map (fun rl => (scaleRow s rl.1, rl.2)))
        (fit clusterFn modalCols rows cols multipliers idx ms md fr) := by
  rw [fit, fit, fitSelected_scaleRow modalCols rows cols ms md s fr hsel]
  cases hfs : fitSelected modalCols rows cols ms md fr with
  | error e => rfl
  | ok selected =>
    dsimp only [Except.map]
    rw [column_multiplier_scaleRow selected cols multipliers idx s]
    cases hcm : column_multiplier selected cols multipliers idx with
    | error e => rfl
    | ok multiplied =>
      dsimp only [Except.map]
      have hz : ∀ r ∈ multiplied, sizeZero r :=
        column_multiplier_sizeZero selected cols multipliers idx multiplied
          hcm h0 hnd
      have hinput : (multiplied.map (scaleRow s)).map (selectCols cols) =
          multiplied.map (selectCols cols) := by
        rw [List.map_map]
        refine List.map_congr_left ?_
        intro r hr
        show selectCols cols (scaleRow s r) = selectCols cols r
        rw [selectCols_scaleRow,
          scaleRow_eq_of_sizeZero s (selectCols cols r)
            (sizeZero_selectCols cols r (hz r hr))]
      rw [hinput, zipWith_pair_map_left]

/-- The constant clustering function used in the concrete C6/C7 scenarios
(the counterexample does not depend on which labels the clusterer returns:
the two runs already differ in their row counts). -/
def cfZero : List MRow → List ℤ := fun rs => rs.map (fun _ => 0)

def rowsC7 : List MRow := [[("frequency", 1), ("size", 6), ("damping", 0)]]

def multC7 : List (String × ℚ) :=
  [("frequency", 40), ("size", 0), ("damping", 1)]

/-- C7 counterexample: with the size multiplier 0, rescaling the raw size
column by the positive factor 1/2 moves the single row (size 6) below
`min_size` 5, so the rescaled run clusters zero rows while the original
run clusters one — the clustering results (label columns) differ. -/
theorem claim_C7_counterexample :
    Except.map (List.map Prod.snd)
        (fit cfZero ["frequency", "size", "damping"] (rowsC7.map (scaleRow (1/2)))
          ["frequency", "size", "damping"] multC7 none 5 5 none) ≠
      Except.map (List.map Prod.snd)
        (fit cfZero ["frequency", "size", "damping"] rowsC7
          ["frequency", "size", "damping"] multC7 none 5 5 none) := by
  intro h
  have h1 : Except.map (List.map Prod.snd)
      (fit cfZero ["frequency", "size", "damping"] (rowsC7.map (scaleRow (1/2)))
        ["frequency", "size", "damping"] multC7 none 5 5 none) =
      Except.ok ([] : List ℤ) := by with_unfolding_all rfl
  have h2 : Except.map (List.map Prod.snd)
      (fit cfZero ["frequency", "size", "damping"] rowsC7
        ["frequency", "size", "damping"] multC7 none 5 5 none) =
      Except.ok ([0] : List ℤ) := by with_unfolding_all rfl
  rw [h1, h2] at h
  simp at h

/-- C7 witness: with scaling factor 2 the single row (size 6, scaled 12)
stays above `min_size` 5 on both sides, and the amended theorem applies:
the rescaled fit equals the original fit up to rescaling the stored size
values, with identical labels. -/
theorem claim_C7_witness :
    fit cfZero ["frequency", "size", "damping"] (rowsC7.map (scaleRow 2))
        ["frequency", "size", "damping"] multC7 none 5 5 none =
      Except.map (List.map (fun rl => (scaleRow 2 rl.1, rl.2)))
        (fit cfZero ["frequency", "size", "damping"] rowsC7
          ["frequency", "size", "damping"] multC7 none 5 5 none) := by
  refine claim_C7_scale_invariance cfZero ["frequency", "size", "damping"]
    rowsC7 ["frequency", "size", "damping"] multC7 none 5 5 none 2
    (by decide) (by decide) ?_
  intro r hr
  have hr0 : r = [(("frequency" : String), (1 : ℚ)), ("size", 6), ("damping", 0)] := by
    simpa [rowsC7] using hr
  rw [hr0]
  constructor
  · intro _
    show (5 : ℚ) < cell (scaleRow 2 _) "size"
    with_unfolding_all decide
  · intro _
    show (5 : ℚ) < cell _ "size"
    with_unfolding_all decide

/-! ## Part 4: `ModeClusterer.predict`, `predict_with_noise` (C3, C5)

These methods read only the `labels` column of the stored fitted table and
touch no other value, so the table is modelled as a list of
`(payload, label)` pairs, the payload being the rest of the row. -/

/-- `Series.unique()`: the distinct values in order of first appearance. -/
def uniqueFirst : List ℤ → List ℤ
  | [] => []
  | x :: xs => x :: uniqueFirst (xs.filter (fun y => decide (y ≠ x)))
termination_by l => l.length
decreasing_by
  simp only [List.length_cons]
  exact Nat.lt_succ_of_le (List.length_filter_le _ _)

/-- `len(df[df["labels"] == label])`. -/
def countLabel {α : Type} (data : List (α × ℤ)) (l : ℤ) : ℕ :=
  (data.filter (fun r => decide (r.2 = l))).length

/-- The `lbls` list of `predict`/`predict_with_noise`: the unique labels
whose population exceeds `min_cluster_size`. -/
def lblsOf {α : Type} (data : List (α × ℤ)) (mcs : ℕ) : List ℤ :=
  (uniqueFirst (data.map Prod.snd)).filter
    (fun l => decide (mcs < countLabel data l))

/-- `pd.factorize`: codes are positions in the first-appearance unique list. -/
def factorize (ls : List ℤ) : List ℤ :=
  ls.map (fun l => ((uniqueFirst ls).indexOf l : ℤ))

/-- Writing a freshly factorized `labels` column back onto the rows. -/
def relabelWith {α : Type} (rows : List (α × ℤ)) (codes : List ℤ) :
    List (α × ℤ) :=
  List.zipWith (fun r c => (r.1, c)) rows codes

/-- The row set of `predict`: labels in `lbls` (by `isin`), then `>= 0`. -/
def predictKept {α : Type} (data : List (α × ℤ)) (mcs : ℕ) : List (α × ℤ) :=
  (data.filter (fun r => (lblsOf data mcs).contains r.2)).filter
    (fun r => decide (0 ≤ r.2))

/-- `ModeClusterer.predict` (identical in `ModeClusterer_HDBSCAN.predict`). -/
def predict {α : Type} (data : List (α × ℤ)) (mcs : ℕ) : List (α × ℤ) :=
  relabelWith (predictKept data mcs)
    (factorize ((predictKept data mcs).map Prod.snd))

/-- `ModeClusterer_HDBSCAN.predict_with_noise`: relabel rows outside `lbls`
to −1, then factorize the **whole** labels column (including −1). -/
def predict_with_noise_hdbscan {α : Type} (data : List (α × ℤ)) (mcs : ℕ) :
    List (α × ℤ) :=
  let data1 := data.map
    (fun r => if (lblsOf data mcs).contains r.2 then r else (r.1, -1))
  relabelWith data1 (factorize (data1.map Prod.snd))

/-- C5: evaluating `ModeClusterer_HDBSCAN.predict_with_noise` on a fitted
table with one noise row (label −1) and one cluster row (label 0), with
`min_cluster_size = 0` so both populations qualify: the noise row comes out
with label 0 — not −1 — because `pd.factorize` is applied to the whole
labels column including the noise value, contradicting the claim (and the
method's own docstring "Keep the noise as -1"). -/
theorem claim_C5_noise_renumbered :
    predict_with_noise_hdbscan [(((0 : ℕ)), (-1 : ℤ)), ((1 : ℕ), 0)] 0 =
      [((0 : ℕ), (0 : ℤ)), ((1 : ℕ), 1)] := by
  norm_num [predict_with_noise_hdbscan, lblsOf, uniqueFirst, countLabel,
    factorize, relabelWith, List.indexOf, List.findIdx, List.findIdx.go]
  decide

/-! ### Lemmas about `uniqueFirst`, `indexOf` and `factorize` -/

lemma uniqueFirst_mem : ∀ (ls : List ℤ) (a : ℤ), a ∈ uniqueFirst ls ↔ a ∈ ls := by
  intro ls
  induction ls using uniqueFirst.induct with
  | case1 => intro a; rw [uniqueFirst]
  | case2 x xs ih =>
    intro a
    rw [uniqueFirst]
    constructor
    · intro h
      rcases List.mem_cons.mp h with h | h
      · exact h ▸ List.mem_cons_self _ _
      · exact List.mem_cons_of_mem _ (List.mem_filter.mp ((ih a).mp h)).1
    · intro h
      rcases List.mem_cons.mp h with h | h
      · exact h ▸ List.mem_cons_self _ _
      · by_cases hax : a = x
        · exact hax ▸ List.mem_cons_self _ _
        · refine List.mem_cons_of_mem _ ((ih a).mpr ?_)
          exact List.mem_filter.mpr ⟨h, by simpa using hax⟩

lemma uniqueFirst_nodup : ∀ ls : List ℤ, (uniqueFirst ls).Nodup := by
  intro ls
  induction ls using uniqueFirst.induct with
  | case1 => rw [uniqueFirst]; exact List.nodup_nil
  | case2 x xs ih =>
    rw [uniqueFirst]
    refine List.nodup_cons.mpr ⟨?_, ih⟩
    intro hmem
    have h2 := (List.mem_filter.mp ((uniqueFirst_mem _ x).mp hmem)).2
    simp at h2

lemma indexOf_filter_lt (p : ℤ → Bool) :
    ∀ (xs : List ℤ) (y z : ℤ), y ∈ xs.filter p → z ∈ xs.filter p →
      (xs.filter p).indexOf y < (xs.filter p).indexOf z →
      xs.indexOf y < xs.indexOf z := by
  intro xs
  induction xs with
  | nil => intro y z hy _ _; simp at hy
  | cons w tl ih =>
    intro y z hy hz hlt
    rw [List.filter_cons] at hy hz hlt
    by_cases hpw : p w = true
    · rw [if_pos hpw] at hy hz hlt
      by_cases hyw : y = w
      · have hzw : z ≠ w := by
          intro hzw
          rw [hyw, hzw, List.indexOf_cons_self] at hlt
          exact Nat.not_lt_zero _ hlt
        rw [hyw, List.indexOf_cons_self,
          List.indexOf_cons_ne tl (fun he => hzw he.symm)]
        exact Nat.succ_pos _
      · by_cases hzw : z = w
        · exfalso
          rw [hzw, List.indexOf_cons_self] at hlt
          exact Nat.not_lt_zero _ hlt
        · rw [List.indexOf_cons_ne _ (fun he => hyw he.symm),
            List.indexOf_cons_ne _ (fun he => hzw he.symm)] at hlt
          have hy2 : y ∈ tl.filter p :=
            (List.mem_cons.mp hy).resolve_left hyw
          have hz2 : z ∈ tl.filter p :=
            (List.mem_cons.mp hz).resolve_left hzw
          rw [List.indexOf_cons_ne tl (fun he => hyw he.symm),
            List.indexOf_cons_ne tl (fun he => hzw he.symm)]
          exact Nat.succ_lt_succ (ih y z hy2 hz2 (Nat.lt_of_succ_lt_succ hlt))
    · rw [if_neg hpw] at hy hz hlt
      have hyw : y ≠ w := fun he => hpw (he ▸ (List.mem_filter.mp hy).2)
      have hzw : z ≠ w := fun he => hpw (he ▸ (List.mem_filter.mp hz).2)
      rw [List.indexOf_cons_ne tl (fun he => hyw he.symm),
        List.indexOf_cons_ne tl (fun he => hzw he.symm)]
      exact Nat.succ_lt_succ (ih y z hy hz hlt)

lemma uniqueFirst_indexOf_lt :
    ∀ (ls : List ℤ) (i j : ℕ) (yi yj : ℤ),
      (uniqueFirst ls).get? i = some yi → (uniqueFirst ls).get? j = some yj →
      i < j → ls.indexOf yi < ls.indexOf yj := by
  intro ls
  induction ls using uniqueFirst.induct with
  | case1 =>
    intro i j yi yj hi hj hij
    rw [uniqueFirst] at hi
    simp at hi
  | case2 x xs ih =>
    intro i j yi yj hi hj hij
    rw [uniqueFirst] at hi hj
    cases i with
    | zero =>
      have hyi : yi = x := by
        rw [List.get?_cons_zero] at hi
        injection hi with h
        exact h.symm
      cases j with
      | zero => exact absurd hij (lt_irrefl 0)
      | succ j2 =>
        rw [List.get?_cons_succ] at hj
        have hmemj : yj ∈ xs.filter (fun y => decide (y ≠ x)) :=
          (uniqueFirst_mem _ _).mp (List.get?_mem hj)
        have hne : yj ≠ x := by
          have := (List.mem_filter.mp hmemj).2
          simpa using this
        rw [hyi, List.indexOf_cons_self,
          List.indexOf_cons_ne xs (fun he => hne he.symm)]
        exact Nat.succ_pos _
    | succ i2 =>
      cases j with
      | zero => exact absurd hij (Nat.not_lt_zero _)
      | succ j2 =>
        rw [List.get?_cons_succ] at hi hj
        have hmemi : yi ∈ xs.filter (fun y => decide (y ≠ x)) :=
          (uniqueFirst_mem _ _).mp (List.get?_mem hi)
        have hmemj : yj ∈ xs.filter (fun y => decide (y ≠ x)) :=
          (uniqueFirst_mem _ _).mp (List.get?_mem hj)
        have hnei : yi ≠ x := by
          have := (List.mem_filter.mp hmemi).2
          simpa using this
        have hnej : yj ≠ x := by
          have := (List.mem_filter.mp hmemj).2
          simpa using this
        rw [List.indexOf_cons_ne xs (fun he => hnei he.symm),
          List.indexOf_cons_ne xs (fun he => hnej he.symm)]
        refine Nat.succ_lt_succ ?_
        refine indexOf_filter_lt _ xs _ _ hmemi hmemj ?_
        exact ih i2 j2 yi yj hi hj (Nat.lt_of_succ_lt_succ hij)

lemma map_snd_relabelWith {α : Type} :
    ∀ (rows : List (α × ℤ)) (codes : List ℤ), rows.length = codes.length →
      (relabelWith rows codes).map Prod.snd = codes := by
  intro rows
  induction rows with
  | nil =>
    intro codes h
    cases codes with
    | nil => rfl
    | cons c cs => simp at h
  | cons r rs ih =>
    intro codes h
    cases codes with
    | nil => simp at h
    | cons c cs =>
      rw [relabelWith, List.zipWith_cons_cons, List.map_cons]
      rw [List.length_cons, List.length_cons] at h
      rw [← relabelWith, ih cs (by omega)]

lemma map_fst_relabelWith {α : Type} :
    ∀ (rows : List (α × ℤ)) (codes : List ℤ), rows.length = codes.length →
      (relabelWith rows codes).map Prod.fst = rows.map Prod.fst := by
  intro rows
  induction rows with
  | nil => intro codes _; rfl
  | cons r rs ih =>
    intro codes h
    cases codes with
    | nil => simp at h
    | cons c cs =>
      rw [relabelWith, List.zipWith_cons_cons, List.map_cons, List.map_cons]
      rw [List.length_cons, List.length_cons] at h
      rw [← relabelWith, ih cs (by omega)]

lemma factorize_length (ls : List ℤ) : (factorize ls).length = ls.length := by
  rw [factorize, List.length_map]

lemma contains_int_iff (l : List ℤ) (a : ℤ) : l.contains a = true ↔ a ∈ l := by
  simp

lemma indexOf_uniqueFirst_iff (ls : List ℤ) (l : ℤ) (hl : l ∈ ls) (k : ℕ)
    (b : ℤ) (hb : (uniqueFirst ls).get? k = some b) :
    (uniqueFirst ls).indexOf l = k ↔ l = b := by
  have hlu : l ∈ uniqueFirst ls := (uniqueFirst_mem ls l).mpr hl
  have hlt : (uniqueFirst ls).indexOf l < (uniqueFirst ls).length :=
    List.indexOf_lt_length.mpr hlu
  rcases List.get?_eq_some.mp hb with ⟨hk, hbget⟩
  constructor
  · intro h
    have hget := List.indexOf_get (a := l) (l := uniqueFirst ls) hlt
    rw [← hget, ← hbget]
    congr 1
    exact Fin.ext h
  · intro h
    subst h
    have hget := List.indexOf_get (a := l) (l := uniqueFirst ls) hlt
    have hgets : (uniqueFirst ls).get ⟨List.indexOf l (uniqueFirst ls), hlt⟩ =
        (uniqueFirst ls).get ⟨k, hk⟩ := by rw [hget, hbget]
    have hfin := ((uniqueFirst_nodup ls).get_inj_iff).mp hgets
    exact congrArg Fin.val hfin

lemma countLabel_eq_countP {α : Type} (rows : List (α × ℤ)) (v : ℤ) :
    countLabel rows v = (rows.map Prod.snd).countP (fun l => decide (l = v)) := by
  rw [countLabel, ← List.countP_eq_length_filter, List.countP_map]
  rfl

lemma countLabel_filter {α : Type} (p : α × ℤ → Bool) (rows : List (α × ℤ))
    (a : ℤ) (hp : ∀ r : α × ℤ, r.2 = a → p r = true) :
    countLabel (rows.filter p) a = countLabel rows a := by
  rw [countLabel, countLabel, List.filter_filter]
  refine congrArg _ (List.filter_congr ?_)
  intro r _
  by_cases hr : r.2 = a
  · rw [decide_eq_true hr, hp r hr]
    rfl
  · rw [decide_eq_false hr]
    rfl

lemma indexOf_map_of_iff :
    ∀ (ls : List ℤ) (f : ℤ → ℤ) (c b : ℤ),
      (∀ l ∈ ls, (f l = c ↔ l = b)) →
      (ls.map f).indexOf c = ls.indexOf b := by
  intro ls f c b
  induction ls with
  | nil => intro _; rfl
  | cons x tl ih =>
    intro h
    rw [List.map_cons]
    by_cases hx : f x = c
    · have hxb : x = b := (h x (List.mem_cons_self _ _)).mp hx
      rw [List.indexOf_cons_eq _ hx, List.indexOf_cons_eq _ hxb]
    · have hxb : x ≠ b := fun he => hx ((h x (List.mem_cons_self _ _)).mpr he)
      rw [List.indexOf_cons_ne _ hx, List.indexOf_cons_ne _ hxb,
        ih (fun l hl => h l (List.mem_cons_of_mem _ hl))]

/-- Rows kept by `predict` have a surviving, non-negative original label. -/
lemma predictKept_mem {α : Type} (data : List (α × ℤ)) (mcs : ℕ)
    (r : α × ℤ) (hr : r ∈ predictKept data mcs) :
    r ∈ data ∧ r.2 ∈ lblsOf data mcs ∧ 0 ≤ r.2 ∧ mcs < countLabel data r.2 := by
  have h2 := List.mem_filter.mp hr
  have h1 := List.mem_filter.mp h2.1
  have hmem : r.2 ∈ lblsOf data mcs := (contains_int_iff _ _).mp h1.2
  have hcnt : mcs < countLabel data r.2 := by
    have := (List.mem_filter.mp hmem).2
    exact of_decide_eq_true this
  exact ⟨h1.1, hmem, of_decide_eq_true h2.2, hcnt⟩

/-- Population counting in `predictKept` agrees with the full table for a
surviving non-negative label. -/
lemma countLabel_predictKept {α : Type} (data : List (α × ℤ)) (mcs : ℕ)
    (l : ℤ) (hl : l ∈ lblsOf data mcs) (hge : 0 ≤ l) :
    countLabel (predictKept data mcs) l = countLabel data l := by
  rw [predictKept, countLabel_filter _ _ _ (fun r hr => decide_eq_true (hr ▸ hge)),
    countLabel_filter _ _ _ (fun r hr => ?_)]
  rw [hr]
  exact (contains_int_iff _ _).mpr hl

/-- C3: after `fit` stored any labeled table, `predict(min_cluster_size)`
returns a table whose labels are exactly `{0, ..., K-1}` (K the number of
surviving clusters) with no gaps; every surviving cluster's row count in the
output strictly exceeds `min_cluster_size`; every output row originates from
an input row with a non-negative label of population `> min_cluster_size`
(so noise rows and undersized clusters are absent); and the new labels are
assigned in order of first appearance (smaller codes first appear earlier). -/
theorem claim_C3_predict {α : Type} (data : List (α × ℤ)) (mcs : ℕ) :
    (∀ l ∈ (predict data mcs).map Prod.snd,
      ∃ k : ℕ, k < (uniqueFirst ((predictKept data mcs).map Prod.snd)).length ∧
        l = (k : ℤ)) ∧
    (∀ k : ℕ, k < (uniqueFirst ((predictKept data mcs).map Prod.snd)).length →
      ((k : ℤ)) ∈ (predict data mcs).map Prod.snd) ∧
    (∀ k : ℕ, k < (uniqueFirst ((predictKept data mcs).map Prod.snd)).length →
      mcs < countLabel (predict data mcs) ((k : ℤ))) ∧
    (∀ a ∈ (predict data mcs).map Prod.fst,
      ∃ l : ℤ, (a, l) ∈ data ∧ 0 ≤ l ∧ mcs < countLabel data l) ∧
    (∀ k1 k2 : ℕ, k1 < k2 →
      k2 < (uniqueFirst ((predictKept data mcs).map Prod.snd)).length →
      ((predict data mcs).map Prod.snd).indexOf ((k1 : ℤ)) <
        ((predict data mcs).map Prod.snd).indexOf ((k2 : ℤ))) := by
  have hsnd : (predict data mcs).map Prod.snd =
      factorize ((predictKept data mcs).map Prod.snd) := by
    rw [predict]
    exact map_snd_relabelWith _ _ (by rw [factorize_length, List.length_map])
  have hfst : (predict data mcs).map Prod.fst =
      (predictKept data mcs).map Prod.fst := by
    rw [predict]
    exact map_fst_relabelWith _ _ (by rw [factorize_length, List.length_map])
  refine ⟨?_, ?_, ?_, ?_, ?_⟩
  · -- every output label is a code below K
    intro l hl
    rw [hsnd, factorize] at hl
    rcases List.mem_map.mp hl with ⟨l0, hl0, heq⟩
    refine ⟨(uniqueFirst ((predictKept data mcs).map Prod.snd)).indexOf l0,
      List.indexOf_lt_length.mpr ((uniqueFirst_mem _ _).mpr hl0), heq.symm⟩
  · -- every code below K occurs
    intro k hk
    rw [hsnd, factorize]
    have hb := List.get?_eq_get (l := uniqueFirst ((predictKept data mcs).map Prod.snd)) hk
    have hbmem : (uniqueFirst ((predictKept data mcs).map Prod.snd)).get ⟨k, hk⟩ ∈
        (predictKept data mcs).map Prod.snd :=
      (uniqueFirst_mem _ _).mp (List.get_mem _ _ _)
    refine List.mem_map.mpr ⟨_, hbmem, ?_⟩
    have hidx := (indexOf_uniqueFirst_iff _ _ hbmem k _ hb).mpr rfl
    rw [hidx]
  · -- surviving clusters keep their full population, which exceeds mcs
    intro k hk
    have hb := List.get?_eq_get (l := uniqueFirst ((predictKept data mcs).map Prod.snd)) hk
    have hbmem : (uniqueFirst ((predictKept data mcs).map Prod.snd)).get ⟨k, hk⟩ ∈
        (predictKept data mcs).map Prod.snd :=
      (uniqueFirst_mem _ _).mp (List.get_mem _ _ _)
    rcases List.mem_map.mp hbmem with ⟨r, hrkept, hrsnd⟩
    rcases predictKept_mem data mcs r hrkept with ⟨_, hlbls, hge, hcnt⟩
    have hcount1 : countLabel (predict data mcs) ((k : ℤ)) =
        countLabel (predictKept data mcs) r.2 := by
      rw [countLabel_eq_countP, hsnd, factorize, List.countP_map,
        countLabel_eq_countP]
      refine List.countP_congr ?_
      intro l0 hl0
      simp only [Function.comp, decide_eq_true_eq]
      rw [hrsnd, Nat.cast_inj]
      exact indexOf_uniqueFirst_iff _ _ hl0 k _ hb
    rw [hcount1, countLabel_predictKept data mcs r.2 hlbls hge]
    exact hcnt
  · -- provenance: every output row comes from a surviving non-noise row
    intro a ha
    rw [hfst] at ha
    rcases List.mem_map.mp ha with ⟨r, hrkept, hrfst⟩
    rcases predictKept_mem data mcs r hrkept with ⟨hrdata, _, hge, hcnt⟩
    refine ⟨r.2, ?_, hge, hcnt⟩
    rw [← hrfst, Prod.mk.eta]
    exact hrdata
  · -- codes are assigned in order of first appearance
    intro k1 k2 h12 hk2
    have hk1 : k1 < (uniqueFirst ((predictKept data mcs).map Prod.snd)).length :=
      lt_trans h12 hk2
    have hb1 := List.get?_eq_get (l := uniqueFirst ((predictKept data mcs).map Prod.snd)) hk1
    have hb2 := List.get?_eq_get (l := uniqueFirst ((predictKept data mcs).map Prod.snd)) hk2
    have hiff : ∀ (k : ℕ) (hk : k < (uniqueFirst ((predictKept data mcs).map Prod.snd)).length),
        ∀ l ∈ (predictKept data mcs).map Prod.snd,
        ((((uniqueFirst ((predictKept data mcs).map Prod.snd)).indexOf l : ℕ) : ℤ) = (k : ℤ) ↔
          l = (uniqueFirst ((predictKept data mcs).map Prod.snd)).get ⟨k, hk⟩) := by
      intro k hk l hl
      rw [Nat.cast_inj]
      exact indexOf_uniqueFirst_iff _ _ hl k _ (List.get?_eq_get hk)
    rw [hsnd, factorize,
      indexOf_map_of_iff _ _ _ _ (hiff k1 hk1),
      indexOf_map_of_iff _ _ _ _ (hiff k2 hk2)]
    exact uniqueFirst_indexOf_lt _ k1 k2 _ _ hb1 hb2 h12

/-- C3 witness: a table with two rows of cluster 5 and
`min_cluster_size = 1`: the theorem yields that code 0 is present in the
output labels. -/
theorem claim_C3_witness :
    ((0 : ℤ)) ∈ (predict [(((0 : ℕ)), (5 : ℤ)), ((1 : ℕ), (5 : ℤ))] 1).map Prod.snd := by
  refine (claim_C3_predict [(((0 : ℕ)), (5 : ℤ)), ((1 : ℕ), (5 : ℤ))] 1).2.1 0 ?_
  norm_num [predictKept, lblsOf, uniqueFirst, countLabel]

end OmaTracking
